import Mathlib

/-!
Shallow embedding of the card-scouting core of src/core/scout_handler.py.

Randomness is made explicit: every call of uniform(0, 1) or randint is
replaced by a value read from an oracle function supplied as an argument,
and the remote catalog (session_manager.get_json) is an oracle from
(rarity, page size) to a fetched response.  Python dicts holding card data
are association lists from field names to values, where a value is either
null (Python None) or a string; the nested "idol" sub-record is kept as a
separate component.  A Python function that can raise an exception
(ZeroDivisionError in _get_adjusted_scout, KeyError/TypeError on the solo
image path) returns an Option, with none for the raised exception, and
_shrink_results, which returns Python None on empty input, returns an
Option as well.
-/

namespace RinBot

/-- The five rarity tiers appearing in the RATES table. -/
inductive Rarity where
  | N | R | SR | SSR | UR
deriving DecidableEq

/-- The three box profiles that key the RATES table. -/
inductive Box where
  | regular | honour | coupon
deriving DecidableEq

/-- The RATES table of scout_handler.py, as exact rationals. -/
def RATES : Box → Rarity → ℚ
  | .regular, .N => 0.95
  | .regular, .R => 0.05
  | .regular, .SR => 0
  | .regular, .SSR => 0
  | .regular, .UR => 0
  | .honour, .N => 0
  | .honour, .R => 0.80
  | .honour, .SR => 0.15
  | .honour, .SSR => 0.04
  | .honour, .UR => 0.01
  | .coupon, .N => 0
  | .coupon, .R => 0
  | .coupon, .SR => 0.80
  | .coupon, .SSR => 0
  | .coupon, .UR => 0.20

/-- ScoutHandler._roll_rarity.  The argument roll is the result of the
uniform(0, 1) call; the cumulative thresholds are formed exactly as in
the source, and when guaranteed_sr is set the R branch returns SR. -/
def roll_rarity (box : Box) (guaranteed_sr : Bool) (roll : ℚ) : Rarity :=
  if roll < RATES box .UR then .UR
  else if roll < RATES box .SSR + RATES box .UR then .SSR
  else if roll < RATES box .SR + RATES box .SSR + RATES box .UR then .SR
  else if roll < RATES box .R + RATES box .SR + RATES box .SSR + RATES box .UR then
    if guaranteed_sr then .SR else .R
  else .N

/-- The rarity-list construction of ScoutHandler._scout_cards
(lines 109-128): the guaranteed_sr branch rolls count - 1 tiers
normally and forces the last roll only when all of those landed in
R or N; otherwise a non-empty name filter on the regular box forces
every tier to N; otherwise all count tiers are rolled normally.
draws i is the i-th uniform(0, 1) value consumed. -/
def plan_rarities (box : Box) (count : ℕ) (guaranteed_sr : Bool)
    (name_filter_nonempty : Bool) (draws : ℕ → ℚ) : List Rarity :=
  if guaranteed_sr then
    let normals := (List.range (count - 1)).map fun i => roll_rarity box false (draws i)
    if normals.count .R + normals.count .N = count - 1 then
      normals ++ [roll_rarity box true (draws (count - 1))]
    else
      normals ++ [roll_rarity box false (draws (count - 1))]
  else if box = .regular ∧ name_filter_nonempty = true then
    List.replicate count .N
  else
    (List.range count).map fun i => roll_rarity box false (draws i)

/-- A catalog fetch response: the dict returned by the API, holding the
page of results and the reported total match count. -/
structure Fetched (α : Type) where
  results : List α
  count : ℕ
deriving DecidableEq

/-- The padding while-loop of _get_adjusted_scout: k is the number of
appends still to perform; each append copies the element at index
randint(0, current length - 1), the random value being pads applied to
the current length and reduced into range. -/
def padLoop {α : Type} (pads : ℕ → ℕ) : ℕ → List α → List α
  | 0, l => l
  | k + 1, l =>
    match l[pads l.length % l.length]? with
    | some a => padLoop pads k (l ++ [a])
    | none => padLoop pads k l

/-- One iteration of the flip loop of _get_adjusted_scout at index i:
with probability 1 / count (the response's count field) the element at
i is overwritten with the current element at i + 1. -/
def flipStep {α : Type} (flips : ℕ → ℚ) (c : ℕ) (l : List α) (i : ℕ) : List α :=
  if flips i < 1 / (c : ℚ) then
    match l[i + 1]? with
    | some v => l.set i v
    | none => l
  else l

/-- The whole flip loop of _get_adjusted_scout: indices 0 .. length - 2
processed left to right on the in-place list. -/
def flipAll {α : Type} (flips : ℕ → ℚ) (c : ℕ) (l : List α) : List α :=
  (List.range (l.length - 1)).foldl (flipStep flips c) l

/-- _get_adjusted_scout.  Returns none for the ZeroDivisionError raised
by 1 / scout['count'] when the count field is zero and the flip loop
body runs (i.e. the padded list has at least two elements).  On success
it returns the mutated response together with the returned list, which
in the source is the very results list stored in the response. -/
def _get_adjusted_scout {α : Type} (pads : ℕ → ℕ) (flips : ℕ → ℚ)
    (scout : Fetched α) (required_count : ℕ) : Option (Fetched α × List α) :=
  if scout.results.length = 0 then some (scout, [])
  else
    let padded := padLoop pads (required_count - scout.results.length) scout.results
    if 2 ≤ padded.length ∧ scout.count = 0 then none
    else some (Fetched.mk (flipAll flips scout.count padded) scout.count,
               flipAll flips scout.count padded)

/-- A JSON scalar value as it appears in a card dict: Python None or a
string. -/
inductive Val where
  | null : Val
  | str : String → Val
deriving DecidableEq

/-- The nested idol sub-record of a card record. -/
structure IdolInfo where
  name : Val
  year : Val
  main_unit : Val
  sub_unit : Val
deriving DecidableEq

/-- A raw card record from the catalog: the top-level scalar fields as an
association list, plus the nested idol sub-record. -/
structure RawRecord where
  top : List (String × Val)
  idol : IdolInfo
deriving DecidableEq

/-- Python dict assignment d[k] = v: overwrite in place if the key is
present, else append at the end. -/
def dictSet (d : List (String × Val)) (k : String) (v : Val) : List (String × Val) :=
  if d.any fun p => p.1 = k then
    d.map fun p => if p.1 = k then (k, v) else p
  else d ++ [(k, v)]

/-- Python dict lookup d[k], none when the key is absent. -/
def dictGet (d : List (String × Val)) (k : String) : Option Val :=
  (d.find? fun p => p.1 = k).map fun p => p.2

/-- The keep_fields set of _shrink_results. -/
def keep_fields : List String :=
  ["id", "name", "year", "main_unit", "sub_unit", "rarity", "attribute",
   "release_date", "round_card_image", "round_card_idolized_image"]

/-- Python (val or '') for a scalar value: None becomes the empty string,
a string stays itself (the empty string is falsy but 'or' then yields the
same empty string). -/
def pyOrEmptyStr : Val → Val
  | .null => .str ""
  | .str s => .str s

/-- The field-hoisting assignments of _shrink_results: name, year,
main_unit and sub_unit are copied from the idol sub-record into the
top-level dict, in source order. -/
def hoistIdol (r : RawRecord) : List (String × Val) :=
  dictSet (dictSet (dictSet (dictSet r.top "name" r.idol.name)
    "year" r.idol.year) "main_unit" r.idol.main_unit) "sub_unit" r.idol.sub_unit

/-- The per-record body of _shrink_results: hoist the idol fields, drop
every field outside keep_fields (this also drops the idol sub-record
itself, whose key is not in keep_fields), then replace each value v by
(v or ''). -/
def shrinkOne (r : RawRecord) : List (String × Val) :=
  ((hoistIdol r).filter fun p => decide (p.1 ∈ keep_fields)).map
    fun p => (p.1, pyOrEmptyStr p.2)

/-- _shrink_results.  On an empty list the source executes a bare
return, i.e. yields Python None, modeled as none; otherwise it returns
the list of shrunk deep copies. -/
def _shrink_results (results : List RawRecord) : Option (List (List (String × Val))) :=
  if results.isEmpty then none
  else some (results.map shrinkOne)

/-- Swap the elements at positions i and j, as random.shuffle does on the
in-place list. -/
def swapAt {α : Type} (l : List α) (i j : ℕ) : List α :=
  match l[i]?, l[j]? with
  | some a, some b => (l.set i b).set j a
  | _, _ => l

/-- The Fisher-Yates loop of random.shuffle: for i from the first
argument down to 1, swap position i with a random position j ≤ i drawn
from the rnd oracle. -/
def fyAux {α : Type} (rnd : ℕ → ℕ) : ℕ → List α → List α
  | 0, l => l
  | i + 1, l => fyAux rnd i (swapAt l (i + 1) (rnd (i + 1) % (i + 2)))

/-- random.shuffle on the whole list. -/
def fisherYates {α : Type} (rnd : ℕ → ℕ) (l : List α) : List α :=
  fyAux rnd (l.length - 1) l

/-- All random and remote inputs consumed by one scout: the uniform
draws of _roll_rarity, the catalog response per (rarity, page size), and
per rarity the randint values of the padding loop, the uniform draws of
the flip loop, and the randint values of the shuffle. -/
structure Oracle where
  rollDraws : ℕ → ℚ
  fetch : Rarity → ℕ → Fetched RawRecord
  pads : Rarity → ℕ → ℕ
  flips : Rarity → ℕ → ℚ
  shuffleR : ℕ → ℕ

/-- One iteration of the per-rarity loop of _scout_cards: a tier with a
zero tally is skipped, otherwise its fetch response is adjusted and the
adjusted list appended; an exception (none) aborts the whole loop. -/
def tierStep (o : Oracle) (plan : List Rarity) (acc : Option (List RawRecord))
    (r : Rarity) : Option (List RawRecord) :=
  match acc with
  | none => none
  | some res =>
    if 0 < plan.count r then
      match _get_adjusted_scout (o.pads r) (o.flips r)
          (o.fetch r (plan.count r)) (plan.count r) with
      | some p => some (res ++ p.2)
      | none => none
    else some res

/-- Iteration order of RATES[self._box].keys(): the insertion order of
the dict literals. -/
def rarityOrder : List Rarity := [.N, .R, .SR, .SSR, .UR]

/-- ScoutHandler._scout_cards: build the rarity plan, fetch and adjust
per tier in key order, then shuffle in place.  The returned list is the
one stored into self.results (aliased, hence shuffled too). -/
def scout_cards (o : Oracle) (box : Box) (count : ℕ) (g : Bool)
    (nameNE : Bool) : Option (List RawRecord) :=
  ((rarityOrder.foldl (tierStep o (plan_rarities box count g nameNE o.rollDraws))
    (some []))).map (fisherYates o.shuffleR)

/-- The solo-scout image-URL derivation (lines 92-95): card["card_image"]
raises KeyError when absent; when it is None, "http:" +
card["card_idolized_image"] raises KeyError when absent and TypeError
when None.  True exactly when no exception is raised. -/
def soloImageOk (c : RawRecord) : Bool :=
  match dictGet c.top "card_image" with
  | none => false
  | some (.str _) => true
  | some .null =>
    match dictGet c.top "card_idolized_image" with
    | some (.str _) => true
    | _ => false

/-- ScoutHandler.do_scout: multi path checks len(cards) != count and
clears results on mismatch; solo path fails on an empty list, else uses
the head card's image.  The outcome pairs self.results after the final
_shrink_results call with whether an image artifact was produced; none
is an uncaught exception. -/
def do_scout (o : Oracle) (box : Box) (count : ℕ) (g : Bool) (nameNE : Bool) :
    Option (Option (List (List (String × Val))) × Bool) :=
  match scout_cards o box count g nameNE with
  | none => none
  | some cards =>
    if 1 < count then
      if cards.length ≠ count then some (_shrink_results [], false)
      else some (_shrink_results cards, true)
    else
      match cards with
      | [] => some (_shrink_results [], false)
      | c :: _ =>
        if soloImageOk c then some (_shrink_results cards, true)
        else none

/-- A concrete catalog record with a non-null card_image. -/
def cexRecord1 : RawRecord :=
  RawRecord.mk [("card_image", Val.str "//i/a.png")]
    (IdolInfo.mk (Val.str "Rin") Val.null Val.null Val.null)

/-- A second concrete catalog record. -/
def cexRecord2 : RawRecord :=
  RawRecord.mk [("card_image", Val.str "//i/b.png")]
    (IdolInfo.mk (Val.str "Umi") Val.null Val.null Val.null)

/-- A run in which every catalog fetch answers with two records and a
count field of 5, every uniform draw is 1/2, and the shuffle draws leave
the list in place. -/
def cexOracle : Oracle :=
  Oracle.mk (fun _ => 1/2) (fun _ _ => Fetched.mk [cexRecord1, cexRecord2] 5)
    (fun _ _ => 0) (fun _ _ => 1/2) (fun i => i)

/-- A run in which every catalog fetch comes back empty. -/
def failOracle : Oracle :=
  Oracle.mk (fun _ => 0) (fun _ _ => Fetched.mk [] 0) (fun _ _ => 0)
    (fun _ _ => 0) (fun i => i)

theorem padLoop_length {α : Type} (pads : ℕ → ℕ) :
    ∀ (k : ℕ) (l : List α), l ≠ [] → (padLoop pads k l).length = l.length + k := by
  intro k
  induction k with
  | zero => intro l _; rfl
  | succ n ih =>
    intro l hl
    have hpos : 0 < l.length := List.length_pos.mpr hl
    have hidx : pads l.length % l.length < l.length := Nat.mod_lt _ hpos
    simp only [padLoop, List.getElem?_eq_getElem hidx]
    rw [ih _ (by simp)]
    simp only [List.length_append, List.length_singleton]
    omega

theorem padLoop_subset {α : Type} (pads : ℕ → ℕ) :
    ∀ (k : ℕ) (l : List α) (x : α), x ∈ padLoop pads k l → x ∈ l := by
  intro k
  induction k with
  | zero => intro l x h; exact h
  | succ n ih =>
    intro l x h
    simp only [padLoop] at h
    cases hg : l[pads l.length % l.length]? with
    | none => rw [hg] at h; exact ih l x h
    | some a =>
      rw [hg] at h
      rcases List.mem_append.mp (ih _ x h) with h' | h'
      · exact h'
      · rw [List.mem_singleton.mp h']
        exact List.getElem?_mem hg

theorem flipStep_length {α : Type} (flips : ℕ → ℚ) (c : ℕ) (l : List α) (i : ℕ) :
    (flipStep flips c l i).length = l.length := by
  unfold flipStep
  split_ifs
  · cases hg : l[i + 1]? <;> simp
  · rfl

theorem flipStep_getElem_ne {α : Type} (flips : ℕ → ℚ) (c : ℕ) (l : List α)
    (i t : ℕ) (h : t ≠ i) : (flipStep flips c l i)[t]? = l[t]? := by
  unfold flipStep
  split_ifs
  · cases hg : l[i + 1]? with
    | none => rfl
    | some v => exact List.getElem?_set_ne (by omega)
  · rfl

theorem flipStep_getElem_self {α : Type} (flips : ℕ → ℚ) (c : ℕ) (l : List α) (i : ℕ) :
    (flipStep flips c l i)[i]? =
      if flips i < 1 / (c : ℚ) ∧ i + 1 < l.length then l[i + 1]? else l[i]? := by
  unfold flipStep
  by_cases h1 : flips i < 1 / (c : ℚ)
  · rw [if_pos h1]
    by_cases h2 : i + 1 < l.length
    · rw [List.getElem?_eq_getElem h2, if_pos ⟨h1, h2⟩]
      exact List.getElem?_set_self (show i < l.length by omega)
    · rw [List.getElem?_eq_none (show l.length ≤ i + 1 by omega),
        if_neg (fun hc => h2 hc.2)]
  · rw [if_neg h1, if_neg (fun hc => h1 hc.1)]

theorem flipStep_subset {α : Type} (flips : ℕ → ℚ) (c : ℕ) (l : List α) (i : ℕ)
    (x : α) (h : x ∈ flipStep flips c l i) : x ∈ l := by
  unfold flipStep at h
  split_ifs at h
  · cases hg : l[i + 1]? with
    | none => rw [hg] at h; exact h
    | some v =>
      rw [hg] at h
      rcases List.mem_or_eq_of_mem_set h with h' | h'
      · exact h'
      · rw [h']
        exact List.getElem?_mem hg
  · exact h

theorem foldl_flipStep_length {α : Type} (flips : ℕ → ℚ) (c : ℕ) :
    ∀ (idxs : List ℕ) (m : List α),
      (idxs.foldl (flipStep flips c) m).length = m.length := by
  intro idxs
  induction idxs with
  | nil => intro m; rfl
  | cons i rest ih => intro m; rw [List.foldl_cons, ih, flipStep_length]

theorem foldl_flipStep_subset {α : Type} (flips : ℕ → ℚ) (c : ℕ) :
    ∀ (idxs : List ℕ) (m : List α) (x : α),
      x ∈ idxs.foldl (flipStep flips c) m → x ∈ m := by
  intro idxs
  induction idxs with
  | nil => intro m x h; exact h
  | cons i rest ih =>
    intro m x h
    rw [List.foldl_cons] at h
    exact flipStep_subset flips c m i x (ih _ x h)

theorem foldl_flip_getElem {α : Type} (flips : ℕ → ℚ) (c : ℕ) (l : List α) :
    ∀ (k j : ℕ) (m : List α), m.length = l.length →
      (∀ t, j ≤ t → m[t]? = l[t]?) →
      ∀ i, ((List.range' j k).foldl (flipStep flips c) m)[i]? =
        if j ≤ i ∧ i < j + k ∧ i + 1 < l.length ∧ flips i < 1 / (c : ℚ)
        then l[i + 1]? else m[i]? := by
  intro k
  induction k with
  | zero =>
    intro j m _ _ i
    rw [if_neg (by rintro ⟨a, b, -, -⟩; omega)]
    rfl
  | succ n ih =>
    intro j m hlen hm i
    rw [List.range'_succ, List.foldl_cons]
    have hlen' : (flipStep flips c m j).length = l.length := by
      rw [flipStep_length, hlen]
    have hup : ∀ t, j + 1 ≤ t → (flipStep flips c m j)[t]? = l[t]? := by
      intro t ht
      rw [flipStep_getElem_ne _ _ _ _ _ (by omega)]
      exact hm t (by omega)
    rw [ih (j + 1) (flipStep flips c m j) hlen' hup i]
    rcases Nat.lt_trichotomy i j with hij | hij | hij
    · rw [if_neg (by rintro ⟨a, -⟩; omega), if_neg (by rintro ⟨a, -⟩; omega)]
      exact flipStep_getElem_ne _ _ _ _ _ (by omega)
    · subst hij
      rw [if_neg (by rintro ⟨a, -⟩; omega), flipStep_getElem_self]
      by_cases hf : flips i < 1 / (c : ℚ)
      · by_cases h2 : i + 1 < l.length
        · rw [if_pos ⟨hf, by omega⟩, if_pos ⟨le_refl i, by omega, h2, hf⟩]
          exact hm (i + 1) (by omega)
        · rw [if_neg (by rintro ⟨-, a⟩; omega), if_neg (by rintro ⟨-, -, a, -⟩; omega)]
      · rw [if_neg (by rintro ⟨a, -⟩; exact hf a),
          if_neg (by rintro ⟨-, -, -, a⟩; exact hf a)]
    · have hcond : (j + 1 ≤ i ∧ i < j + 1 + n ∧ i + 1 < l.length ∧
          flips i < 1 / (c : ℚ)) ↔
          (j ≤ i ∧ i < j + (n + 1) ∧ i + 1 < l.length ∧ flips i < 1 / (c : ℚ)) := by
        constructor <;> rintro ⟨a, b, d, e⟩ <;> exact ⟨by omega, by omega, d, e⟩
      rw [if_congr hcond rfl (flipStep_getElem_ne _ _ _ _ _ (by omega))]

theorem flipAll_length {α : Type} (flips : ℕ → ℚ) (c : ℕ) (l : List α) :
    (flipAll flips c l).length = l.length :=
  foldl_flipStep_length flips c _ l

theorem flipAll_subset {α : Type} (flips : ℕ → ℚ) (c : ℕ) (l : List α) (x : α)
    (h : x ∈ flipAll flips c l) : x ∈ l :=
  foldl_flipStep_subset flips c _ l x h

theorem flipAll_getElem {α : Type} (flips : ℕ → ℚ) (c : ℕ) (l : List α) (i : ℕ) :
    (flipAll flips c l)[i]? =
      if i + 1 < l.length ∧ flips i < 1 / (c : ℚ) then l[i + 1]? else l[i]? := by
  unfold flipAll
  rw [List.range_eq_range',
    foldl_flip_getElem flips c l (l.length - 1) 0 l rfl (fun t _ => rfl) i]
  have hcond : (0 ≤ i ∧ i < 0 + (l.length - 1) ∧ i + 1 < l.length ∧
      flips i < 1 / (c : ℚ)) ↔ (i + 1 < l.length ∧ flips i < 1 / (c : ℚ)) := by
    constructor
    · rintro ⟨-, -, d, e⟩; exact ⟨d, e⟩
    · rintro ⟨d, e⟩; exact ⟨by omega, by omega, d, e⟩
  rw [if_congr hcond rfl rfl]

theorem adjusted_success_shape {α : Type} (pads : ℕ → ℕ) (flips : ℕ → ℚ)
    (scout : Fetched α) (rc : ℕ) (p : Fetched α × List α)
    (hne : scout.results.length ≠ 0)
    (h : _get_adjusted_scout pads flips scout rc = some p) :
    p = (Fetched.mk (flipAll flips scout.count
          (padLoop pads (rc - scout.results.length) scout.results)) scout.count,
        flipAll flips scout.count
          (padLoop pads (rc - scout.results.length) scout.results)) ∧
    ¬(2 ≤ (padLoop pads (rc - scout.results.length) scout.results).length ∧
        scout.count = 0) := by
  simp only [_get_adjusted_scout] at h
  rw [if_neg hne] at h
  split_ifs at h with hcond
  exact ⟨(Option.some.inj h).symm, hcond⟩

/-- C7: for every box profile and every draw u in [0,1), rolling with
forbid_common set never returns R; it returns SR whenever the plain roll
would return R, and returns the same tier as the plain roll otherwise. -/
theorem claim7_forbid_common (box : Box) (u : ℚ) (h0 : 0 ≤ u) (h1 : u < 1) :
    roll_rarity box true u ≠ .R ∧
    (roll_rarity box false u = .R → roll_rarity box true u = .SR) ∧
    (roll_rarity box false u ≠ .R → roll_rarity box true u = roll_rarity box false u) := by
  unfold roll_rarity
  split_ifs <;> simp_all

/-- Witness for C7 at box = honour, u = 1/2. -/
theorem claim7_forbid_common_witness :
    (0:ℚ) ≤ 1/2 ∧ (1/2:ℚ) < 1 ∧
    (roll_rarity .honour true (1/2) ≠ .R ∧
     (roll_rarity .honour false (1/2) = .R → roll_rarity .honour true (1/2) = .SR) ∧
     (roll_rarity .honour false (1/2) ≠ .R →
       roll_rarity .honour true (1/2) = roll_rarity .honour false (1/2))) :=
  ⟨by norm_num, by norm_num,
   claim7_forbid_common .honour (1/2) (by norm_num) (by norm_num)⟩

/-- C1 counterexample: in the regular box (N weight 0.95) with count = 2
and every draw 1/2, the single normal roll lands N, the force fires, yet
the forced final roll also lands N, so the plan [N, N] contains no tier
in {SR, SSR, UR}. -/
theorem claim1_counterexample :
    plan_rarities .regular 2 true false (fun _ => (1:ℚ)/2) = [.N, .N] ∧
    ((List.range 1).map fun i =>
        roll_rarity .regular false ((fun _ => (1:ℚ)/2) i)).count .R +
      ((List.range 1).map fun i =>
        roll_rarity .regular false ((fun _ => (1:ℚ)/2) i)).count .N = 1 ∧
    Rarity.SR ∉ plan_rarities .regular 2 true false (fun _ => (1:ℚ)/2) ∧
    Rarity.SSR ∉ plan_rarities .regular 2 true false (fun _ => (1:ℚ)/2) ∧
    Rarity.UR ∉ plan_rarities .regular 2 true false (fun _ => (1:ℚ)/2) := by
  have hplan : plan_rarities .regular 2 true false (fun _ => (1:ℚ)/2) = [.N, .N] := by
    norm_num [plan_rarities, roll_rarity, RATES, List.range_succ, List.count_cons]
  refine ⟨hplan, ?_, ?_, ?_, ?_⟩
  · have h : roll_rarity .regular false ((2:ℚ)⁻¹) = .N := by
      norm_num [roll_rarity, RATES]
    simp [List.range_succ, h, List.count_cons]
  all_goals rw [hplan]; decide

/-- C1 (amended): for the boxes whose N weight is zero (honour and
coupon), a guaranteed-rare plan of size at least 2 whose force fired
(all count - 1 normal rolls landed in {R, N}) contains at least one
tier in {SR, SSR, UR}, for draws in [0,1). -/
theorem claim1_guaranteed_rare_forced (box : Box)
    (hbox : box = .honour ∨ box = .coupon) (count : ℕ) (hc : 2 ≤ count)
    (nameNE : Bool) (draws : ℕ → ℚ) (hd : ∀ i, 0 ≤ draws i ∧ draws i < 1)
    (hforce : ((List.range (count - 1)).map fun i =>
        roll_rarity box false (draws i)).count .R +
      ((List.range (count - 1)).map fun i =>
        roll_rarity box false (draws i)).count .N = count - 1) :
    ∃ r ∈ plan_rarities box count true nameNE draws,
      r = .SR ∨ r = .SSR ∨ r = .UR := by
  refine ⟨roll_rarity box true (draws (count - 1)), ?_, ?_⟩
  · simp only [plan_rarities, if_true]
    rw [if_pos hforce]
    exact List.mem_append_right _ (List.mem_singleton.mpr rfl)
  · rcases hd (count - 1) with ⟨h0, h1⟩
    rcases hbox with h | h <;> subst h <;>
      simp only [roll_rarity, RATES] <;> split_ifs <;>
        first
          | (simp
             done)
          | (exfalso
             rename_i hlast
             norm_num at hlast
             linarith)

/-- Witness for C1 at box = honour, count = 2, all draws 1/2: the normal
roll lands R, the force fires, and the forced roll lands SR. -/
theorem claim1_guaranteed_rare_forced_witness :
    ∃ r ∈ plan_rarities .honour 2 true false (fun _ => (1:ℚ)/2),
      r = .SR ∨ r = .SSR ∨ r = .UR :=
  claim1_guaranteed_rare_forced .honour (Or.inl rfl) 2 (by norm_num) false
    (fun _ => (1:ℚ)/2) (fun _ => by norm_num)
    (by
      have h : roll_rarity .honour false ((2:ℚ)⁻¹) = .R := by
        norm_num [roll_rarity, RATES]
      simp [List.range_succ, h, List.count_cons])

/-- C2 counterexample: with the regular box, a non-empty name filter and
guaranteed_rare also set, count = 1 and draw 1/50, the plan is [SR], not
all-N: the guaranteed_rare branch preempts the name-filter rule. -/
theorem claim2_counterexample :
    plan_rarities .regular 1 true true (fun _ => (1:ℚ)/50) = [.SR] ∧
    plan_rarities .regular 1 true true (fun _ => (1:ℚ)/50) ≠
      List.replicate 1 .N := by
  have h : plan_rarities .regular 1 true true (fun _ => (1:ℚ)/50) = [.SR] := by
    norm_num [plan_rarities, roll_rarity, RATES]
  exact ⟨h, by rw [h]; decide⟩

/-- C4 counterexample: a fetch response with two results and required
count 1 makes the adjuster return a list of length 2, not 1: padding only
pads up, it never truncates. -/
theorem claim4_counterexample :
    _get_adjusted_scout (fun _ => 0) (fun _ => (1:ℚ)/2)
        (Fetched.mk ([10, 20] : List ℕ) 5) 1
      = some (Fetched.mk ([10, 20] : List ℕ) 5, [10, 20]) ∧
    ([10, 20] : List ℕ).length ≠ 1 := by
  constructor
  · norm_num [_get_adjusted_scout, padLoop, flipAll, flipStep, List.range_succ]
  · decide

/-- C4 (amended): for a fetch response with non-empty results and a
nonzero count field, the adjuster succeeds and returns a list of length
max(len(results), requiredCount); in particular the length equals
requiredCount exactly when the input length is at most requiredCount. -/
theorem claim4_adjust_length {α : Type} (pads : ℕ → ℕ) (flips : ℕ → ℚ)
    (resp : Fetched α) (rc : ℕ) (hne : resp.results ≠ []) (hc : resp.count ≠ 0) :
    ∃ resp' out, _get_adjusted_scout pads flips resp rc = some (resp', out) ∧
      out.length = max resp.results.length rc ∧
      (resp.results.length ≤ rc → out.length = rc) := by
  have hlen0 : resp.results.length ≠ 0 := fun h0 => hne (List.length_eq_zero.mp h0)
  have hpad : (padLoop pads (rc - resp.results.length) resp.results).length
      = resp.results.length + (rc - resp.results.length) :=
    padLoop_length pads _ _ hne
  refine ⟨Fetched.mk (flipAll flips resp.count
      (padLoop pads (rc - resp.results.length) resp.results)) resp.count,
    flipAll flips resp.count (padLoop pads (rc - resp.results.length) resp.results),
    ?_, ?_, ?_⟩
  · simp only [_get_adjusted_scout]
    rw [if_neg hlen0, if_neg (fun hcond => hc hcond.2)]
  · rw [flipAll_length, hpad]
    rcases Nat.le_total resp.results.length rc with h | h
    · rw [Nat.max_eq_right h]; omega
    · rw [Nat.max_eq_left h]; omega
  · intro hle
    rw [flipAll_length, hpad]
    omega

/-- Witness for C4 at a single-result response padded up to 3. -/
theorem claim4_adjust_length_witness :
    ∃ resp' out, _get_adjusted_scout (fun _ => 0) (fun _ => (1:ℚ)/2)
        (Fetched.mk ([4] : List ℕ) 9) 3 = some (resp', out) ∧
      out.length = max 1 3 ∧ (1 ≤ 3 → out.length = 3) :=
  claim4_adjust_length (fun _ => 0) (fun _ => (1:ℚ)/2) (Fetched.mk [4] 9) 3
    (by simp) (by norm_num)

/-- C8: on every successful adjustment of a response with non-empty
results, the output has the padded list's length, and its element at
each index i is the padded list's element at i + 1 precisely when i is a
flip-loop index (i + 1 < padded length, so i ranges over 0 .. length - 2)
and the i-th flip draw is below 1 / count, the count field of the fetch
response; otherwise the padded element at i survives.  The right
neighbour read is the pre-pass (padded) value: earlier flips never touch
it. -/
theorem claim8_flip_pass {α : Type} (pads : ℕ → ℕ) (flips : ℕ → ℚ)
    (resp : Fetched α) (rc : ℕ) (resp' : Fetched α) (out : List α) (i : ℕ)
    (hne : resp.results ≠ [])
    (h : _get_adjusted_scout pads flips resp rc = some (resp', out)) :
    out.length = (padLoop pads (rc - resp.results.length) resp.results).length ∧
    out[i]? =
      if i + 1 < (padLoop pads (rc - resp.results.length) resp.results).length ∧
          flips i < 1 / (resp.count : ℚ)
      then (padLoop pads (rc - resp.results.length) resp.results)[i + 1]?
      else (padLoop pads (rc - resp.results.length) resp.results)[i]? := by
  have hlen0 : resp.results.length ≠ 0 := fun h0 => hne (List.length_eq_zero.mp h0)
  obtain ⟨hp, -⟩ := adjusted_success_shape pads flips resp rc (resp', out) hlen0 h
  have h2 : out = flipAll flips resp.count
      (padLoop pads (rc - resp.results.length) resp.results) :=
    congrArg Prod.snd hp
  constructor
  · rw [h2, flipAll_length]
  · rw [h2, flipAll_getElem]

/-- Witness for C8: response [1, 2] with count field 5, required count 2,
flip draw 0 at index 0: the element at 0 is replaced by the one at 1. -/
theorem claim8_flip_pass_witness :
    ([2, 2] : List ℕ).length = (padLoop (fun _ => 0) 0 ([1, 2] : List ℕ)).length ∧
    ([2, 2] : List ℕ)[0]? =
      if 0 + 1 < (padLoop (fun _ => 0) 0 ([1, 2] : List ℕ)).length ∧
          (0:ℚ) < 1 / ((5:ℕ) : ℚ)
      then (padLoop (fun _ => 0) 0 ([1, 2] : List ℕ))[0 + 1]?
      else (padLoop (fun _ => 0) 0 ([1, 2] : List ℕ))[0]? :=
  claim8_flip_pass (fun _ => 0) (fun _ => (0:ℚ)) (Fetched.mk [1, 2] 5) 2
    (Fetched.mk [2, 2] 5) [2, 2] 0 (by simp)
    (by norm_num [_get_adjusted_scout, padLoop, flipAll, flipStep, List.range_succ])

/-- C9: the adjuster is total whenever the response's count field is
nonzero, and the division-by-zero error branch (none) is reached at the
concrete input results = [1, 2], count = 0, required count 2. -/
theorem claim9_division_guard :
    (∀ {α : Type} (pads : ℕ → ℕ) (flips : ℕ → ℚ) (resp : Fetched α) (rc : ℕ),
      resp.count ≠ 0 → (_get_adjusted_scout pads flips resp rc).isSome = true) ∧
    _get_adjusted_scout (fun _ => 0) (fun _ => (0:ℚ))
      (Fetched.mk ([1, 2] : List ℕ) 0) 2 = none := by
  constructor
  · intro α pads flips resp rc hc
    simp only [_get_adjusted_scout]
    split_ifs with h0 hcond
    · rfl
    · exact absurd hcond.2 hc
    · rfl
  · rfl

/-- Witness for C9's totality part at a nonzero count field. -/
theorem claim9_division_guard_witness :
    (_get_adjusted_scout (fun _ => 0) (fun _ => (0:ℚ))
      (Fetched.mk ([5] : List ℕ) 3) 1).isSome = true :=
  claim9_division_guard.1 (fun _ => 0) (fun _ => (0:ℚ)) (Fetched.mk [5] 3) 1
    (by norm_num)

/-- C10: the adjuster's in-place mutation, observed through the
state-passing embedding: on every success the returned list is exactly
the results list stored in the returned response, the count field is
unchanged, and every element of the returned list (padded duplicates
included) is an element of the original results list. -/
theorem claim10_in_place {α : Type} (pads : ℕ → ℕ) (flips : ℕ → ℚ)
    (resp : Fetched α) (rc : ℕ) (resp' : Fetched α) (out : List α)
    (h : _get_adjusted_scout pads flips resp rc = some (resp', out)) :
    out = resp'.results ∧ resp'.count = resp.count ∧
      ∀ x ∈ out, x ∈ resp.results := by
  by_cases hne : resp.results.length = 0
  · simp only [_get_adjusted_scout, if_pos hne] at h
    have hpair := Option.some.inj h
    have hr : resp' = resp := (congrArg Prod.fst hpair).symm
    have ho : out = [] := (congrArg Prod.snd hpair).symm
    refine ⟨?_, by rw [hr], by rw [ho]; intro x hx; cases hx⟩
    rw [ho, hr, List.length_eq_zero.mp hne]
  · obtain ⟨hp, -⟩ := adjusted_success_shape pads flips resp rc (resp', out) hne h
    have h1 : resp' = Fetched.mk (flipAll flips resp.count
        (padLoop pads (rc - resp.results.length) resp.results)) resp.count :=
      congrArg Prod.fst hp
    have h2 : out = flipAll flips resp.count
        (padLoop pads (rc - resp.results.length) resp.results) :=
      congrArg Prod.snd hp
    refine ⟨by rw [h2, h1], by rw [h1], ?_⟩
    intro x hx
    rw [h2] at hx
    exact padLoop_subset pads _ _ x (flipAll_subset _ _ _ x hx)

/-- Witness for C10: [7] with count 3 padded to [7, 7]; the returned list
is the response's stored list and every element comes from [7]. -/
theorem claim10_in_place_witness :
    ([7, 7] : List ℕ) = (Fetched.mk ([7, 7] : List ℕ) 3).results ∧
    (Fetched.mk ([7, 7] : List ℕ) 3).count = (Fetched.mk ([7] : List ℕ) 3).count ∧
    ∀ x ∈ ([7, 7] : List ℕ), x ∈ (Fetched.mk ([7] : List ℕ) 3).results :=
  claim10_in_place (fun _ => 0) (fun _ => (1:ℚ)/2) (Fetched.mk [7] 3) 2
    (Fetched.mk [7, 7] 3) [7, 7]
    (by norm_num [_get_adjusted_scout, padLoop, flipAll, flipStep, List.range_succ])

/-- C2 (amended): the name-filter rule is checked only after the
guaranteed_rare branch; when guaranteed_rare is not set, a regular-box
request with a non-empty name filter forces every one of the count tiers
to N. -/
theorem claim2_name_filter_all_n (count : ℕ) (draws : ℕ → ℚ) :
    plan_rarities .regular count false true draws = List.replicate count .N := by
  simp [plan_rarities]

theorem shrinkOne_mem_forward (r : RawRecord) :
    ∀ p ∈ shrinkOne r, p.1 ∈ keep_fields ∧ p.2 ≠ Val.null ∧
      ((p.1, p.2) ∈ hoistIdol r ∨
        (p.2 = Val.str "" ∧ (p.1, Val.null) ∈ hoistIdol r)) := by
  intro p hp
  simp only [shrinkOne, List.mem_map] at hp
  obtain ⟨q, hq, rfl⟩ := hp
  rw [List.mem_filter] at hq
  obtain ⟨hqmem, hqkeep⟩ := hq
  obtain ⟨k, v⟩ := q
  refine ⟨of_decide_eq_true hqkeep, ?_, ?_⟩
  · cases v <;> simp [pyOrEmptyStr]
  · cases v with
    | null => exact Or.inr ⟨rfl, hqmem⟩
    | str s => exact Or.inl hqmem

theorem shrinkOne_preserve (r : RawRecord) (k : String) (s : String)
    (hmem : (k, Val.str s) ∈ hoistIdol r) (hk : k ∈ keep_fields) :
    (k, Val.str s) ∈ shrinkOne r := by
  simp only [shrinkOne, List.mem_map]
  refine ⟨(k, Val.str s), ?_, rfl⟩
  rw [List.mem_filter]
  exact ⟨hmem, decide_eq_true hk⟩

/-- C5: every record produced by the normalizer on a non-empty input is
the shrink of some input record; its fields all lie in keep_fields; no
value is null, each being either an exactly preserved value of the
hoisted record or the empty string standing for a null; and every
non-null hoisted value under an allow-listed key survives exactly. -/
theorem claim5_normalizer (records : List RawRecord) (hne : records ≠ [])
    (out : List (List (String × Val))) (hout : _shrink_results records = some out) :
    ∀ rec ∈ out, ∃ rec0 ∈ records, rec = shrinkOne rec0 ∧
      (∀ p ∈ rec, p.1 ∈ keep_fields ∧ p.2 ≠ Val.null ∧
        ((p.1, p.2) ∈ hoistIdol rec0 ∨
          (p.2 = Val.str "" ∧ (p.1, Val.null) ∈ hoistIdol rec0))) ∧
      (∀ k s, (k, Val.str s) ∈ hoistIdol rec0 → k ∈ keep_fields →
        (k, Val.str s) ∈ rec) := by
  have hfalse : records.isEmpty = false := by
    cases records with
    | nil => exact absurd rfl hne
    | cons a t => rfl
  have h1 : out = records.map shrinkOne := by
    simp only [_shrink_results, hfalse] at hout
    simpa using hout.symm
  subst h1
  intro rec hrec
  obtain ⟨rec0, hrec0, rfl⟩ := List.mem_map.mp hrec
  exact ⟨rec0, hrec0, rfl, shrinkOne_mem_forward rec0,
    fun k s => shrinkOne_preserve rec0 k s⟩

/-- Witness for C5 at one concrete record whose idol name is hoisted and
whose null idol fields become empty strings. -/
theorem claim5_normalizer_witness :
    ∃ rec0 ∈ [RawRecord.mk [("id", Val.str "9")]
        (IdolInfo.mk (Val.str "Rin") Val.null Val.null Val.null)],
      [("id", Val.str "9"), ("name", Val.str "Rin"), ("year", Val.str ""),
          ("main_unit", Val.str ""), ("sub_unit", Val.str "")] = shrinkOne rec0 ∧
      (∀ p ∈ [("id", Val.str "9"), ("name", Val.str "Rin"),
          ("year", Val.str ""), ("main_unit", Val.str ""),
          ("sub_unit", Val.str "")],
        p.1 ∈ keep_fields ∧ p.2 ≠ Val.null ∧
          ((p.1, p.2) ∈ hoistIdol rec0 ∨
            (p.2 = Val.str "" ∧ (p.1, Val.null) ∈ hoistIdol rec0))) ∧
      (∀ k s, (k, Val.str s) ∈ hoistIdol rec0 → k ∈ keep_fields →
        (k, Val.str s) ∈ [("id", Val.str "9"), ("name", Val.str "Rin"),
          ("year", Val.str ""), ("main_unit", Val.str ""),
          ("sub_unit", Val.str "")]) :=
  claim5_normalizer
    [RawRecord.mk [("id", Val.str "9")]
      (IdolInfo.mk (Val.str "Rin") Val.null Val.null Val.null)]
    (by simp)
    [[("id", Val.str "9"), ("name", Val.str "Rin"), ("year", Val.str ""),
      ("main_unit", Val.str ""), ("sub_unit", Val.str "")]]
    (by rfl)
    [("id", Val.str "9"), ("name", Val.str "Rin"), ("year", Val.str ""),
      ("main_unit", Val.str ""), ("sub_unit", Val.str "")]
    (by simp)

/-- C6 counterexample: on the empty input list the normalizer returns
Python None (none), which is not the empty list of records. -/
theorem claim6_counterexample :
    _shrink_results ([] : List RawRecord) = none ∧
    _shrink_results ([] : List RawRecord) ≠
      some ([] : List (List (String × Val))) :=
  ⟨rfl, fun h => Option.noConfusion h⟩

/-- C6 (amended): the normalizer yields none (Python None, not a list)
on the empty input, and on every non-empty input it is the pure,
deterministic per-record map of shrinkOne. -/
theorem claim6_empty_input :
    _shrink_results ([] : List RawRecord) = none ∧
    ∀ (results : List RawRecord), results ≠ [] →
      _shrink_results results = some (results.map shrinkOne) := by
  constructor
  · rfl
  · intro results h
    have hfalse : results.isEmpty = false := by
      cases results with
      | nil => exact absurd rfl h
      | cons a t => rfl
    simp [_shrink_results, hfalse]

/-- Witness for C6's non-empty part at a one-record list. -/
theorem claim6_empty_input_witness :
    _shrink_results
        [RawRecord.mk [] (IdolInfo.mk Val.null Val.null Val.null Val.null)]
      = some ([RawRecord.mk []
          (IdolInfo.mk Val.null Val.null Val.null Val.null)].map shrinkOne) :=
  claim6_empty_input.2 _ (by simp)

theorem swapAt_length {α : Type} (l : List α) (i j : ℕ) :
    (swapAt l i j).length = l.length := by
  unfold swapAt
  cases h1 : l[i]? <;> cases h2 : l[j]? <;> simp

theorem fyAux_length {α : Type} (rnd : ℕ → ℕ) :
    ∀ (n : ℕ) (l : List α), (fyAux rnd n l).length = l.length := by
  intro n
  induction n with
  | zero => intro l; rfl
  | succ m ih => intro l; simp only [fyAux]; rw [ih, swapAt_length]

theorem fisherYates_length {α : Type} (rnd : ℕ → ℕ) (l : List α) :
    (fisherYates rnd l).length = l.length :=
  fyAux_length rnd _ l

theorem count5 (l : List Rarity) :
    l.count .N + l.count .R + l.count .SR + l.count .SSR + l.count .UR
      = l.length := by
  induction l with
  | nil => rfl
  | cons a t ih => cases a <;> simp [List.count_cons] <;> omega

theorem plan_rarities_length (box : Box) (count : ℕ) (g nameNE : Bool)
    (draws : ℕ → ℚ) (hc : 1 ≤ count) :
    (plan_rarities box count g nameNE draws).length = count := by
  simp only [plan_rarities]
  split_ifs <;> simp <;> omega

theorem shrink_results_nonempty (results : List RawRecord) (h : results ≠ []) :
    _shrink_results results = some (results.map shrinkOne) := by
  have hfalse : results.isEmpty = false := by
    cases results with
    | nil => exact absurd rfl h
    | cons a t => rfl
  simp [_shrink_results, hfalse]

theorem adjusted_length_le {α : Type} (pads : ℕ → ℕ) (flips : ℕ → ℚ)
    (resp : Fetched α) (rc : ℕ) (p : Fetched α × List α)
    (h : _get_adjusted_scout pads flips resp rc = some p)
    (hfetch : resp.results.length ≤ rc) : p.2.length ≤ rc := by
  by_cases hne : resp.results.length = 0
  · simp only [_get_adjusted_scout, if_pos hne] at h
    have h2 := congrArg Prod.snd (Option.some.inj h)
    rw [← h2]
    simp
  · obtain ⟨hp, -⟩ := adjusted_success_shape pads flips resp rc p hne h
    have h2 : p.2 = flipAll flips resp.count
        (padLoop pads (rc - resp.results.length) resp.results) :=
      congrArg Prod.snd hp
    rw [h2, flipAll_length,
      padLoop_length pads _ _ (fun hh => hne (by simp [hh]))]
    omega

theorem foldl_tierStep_none (o : Oracle) (plan : List Rarity) :
    ∀ rs : List Rarity, rs.foldl (tierStep o plan) none = none := by
  intro rs
  induction rs with
  | nil => rfl
  | cons r rest ih => rw [List.foldl_cons]; exact ih

theorem tier_foldl_bound (o : Oracle) (plan : List Rarity)
    (hfetch : ∀ r n, (o.fetch r n).results.length ≤ n) :
    ∀ (rs : List Rarity) (acc res : List RawRecord),
      rs.foldl (tierStep o plan) (some acc) = some res →
      res.length ≤ acc.length + (rs.map fun r => plan.count r).sum := by
  intro rs
  induction rs with
  | nil =>
    intro acc res h
    rw [List.foldl_nil] at h
    rw [← Option.some.inj h]
    simp
  | cons r rest ih =>
    intro acc res h
    rw [List.foldl_cons] at h
    by_cases hz : 0 < plan.count r
    · simp only [tierStep, if_pos hz] at h
      cases hadj : _get_adjusted_scout (o.pads r) (o.flips r)
          (o.fetch r (plan.count r)) (plan.count r) with
      | none =>
        rw [hadj] at h
        rw [foldl_tierStep_none] at h
        exact absurd h (by simp)
      | some p =>
        rw [hadj] at h
        have hlen := adjusted_length_le _ _ _ _ p hadj (hfetch r (plan.count r))
        have hrec := ih (acc ++ p.2) res h
        rw [List.length_append] at hrec
        simp only [List.map_cons, List.sum_cons]
        omega
    · simp only [tierStep, if_neg hz] at h
      have hrec := ih acc res h
      simp only [List.map_cons, List.sum_cons]
      omega

theorem scout_cards_length_le (o : Oracle) (box : Box) (count : ℕ)
    (g nameNE : Bool)
    (hfetch : ∀ r n, (o.fetch r n).results.length ≤ n) (hc : 1 ≤ count)
    (cards : List RawRecord) (h : scout_cards o box count g nameNE = some cards) :
    cards.length ≤ count := by
  unfold scout_cards at h
  cases hfold : rarityOrder.foldl
      (tierStep o (plan_rarities box count g nameNE o.rollDraws)) (some []) with
  | none => rw [hfold] at h; exact absurd h (by simp)
  | some res =>
    rw [hfold] at h
    have hcards : cards = fisherYates o.shuffleR res := by
      have := Option.some.inj h
      exact this.symm
    have hbound := tier_foldl_bound o _ hfetch rarityOrder [] res hfold
    have hplanlen := plan_rarities_length box count g nameNE o.rollDraws hc
    have hcount := count5 (plan_rarities box count g nameNE o.rollDraws)
    simp only [rarityOrder, List.map_cons, List.map_nil, List.sum_cons,
      List.sum_nil, List.length_nil] at hbound
    rw [hcards, fisherYates_length]
    omega

/-- C3 (amended): provided every catalog fetch returns at most the
requested page size, every exception-free scout outcome is all-or-
nothing: an artifact is produced together with a stored result list of
exactly the requested count, or no artifact is produced and the stored
results are Python None (the shrink of the cleared empty list). -/
theorem claim3_all_or_nothing (o : Oracle)
    (hfetch : ∀ r n, (o.fetch r n).results.length ≤ n)
    (box : Box) (count : ℕ) (g nameNE : Bool) (hc : 1 ≤ count)
    (res : Option (List (List (String × Val)))) (img : Bool)
    (h : do_scout o box count g nameNE = some (res, img)) :
    (img = true ∧ ∃ l, res = some l ∧ l.length = count) ∨
    (img = false ∧ res = none) := by
  unfold do_scout at h
  split at h
  · exact absurd h (by simp)
  · rename_i cards hsc
    have hbound := scout_cards_length_le o box count g nameNE hfetch hc cards hsc
    split at h
    · -- multi-card path
      split at h
      · -- length mismatch: results cleared
        have hpair := Option.some.inj h
        right
        exact ⟨(congrArg Prod.snd hpair).symm, (congrArg Prod.fst hpair).symm⟩
      · rename_i hmulti hlen
        have hlene : cards.length = count := by
          by_contra hno
          exact hlen hno
        have hpair := Option.some.inj h
        have himg : img = true := (congrArg Prod.snd hpair).symm
        have hres : res = _shrink_results cards := (congrArg Prod.fst hpair).symm
        have hcne : cards ≠ [] := by
          intro hnil
          rw [hnil] at hlene
          simp at hlene
          omega
        left
        refine ⟨himg, cards.map shrinkOne, ?_, ?_⟩
        · rw [hres, shrink_results_nonempty cards hcne]
        · rw [List.length_map, hlene]
    · -- solo path
      rename_i hmulti
      split at h
      · -- empty card list: failure
        have hpair := Option.some.inj h
        right
        exact ⟨(congrArg Prod.snd hpair).symm, (congrArg Prod.fst hpair).symm⟩
      · rename_i c t
        split at h
        · have hpair := Option.some.inj h
          have himg : img = true := (congrArg Prod.snd hpair).symm
          have hres : res = _shrink_results (c :: t) := (congrArg Prod.fst hpair).symm
          have hone : count = 1 := by omega
          have hlen1 : (c :: t).length = 1 := by
            have hle : (c :: t).length ≤ 1 := by rw [← hone]; exact hbound
            simp only [List.length_cons] at hle ⊢
            omega
          left
          refine ⟨himg, (c :: t).map shrinkOne, ?_, ?_⟩
          · rw [hres, shrink_results_nonempty _ (by simp)]
          · rw [List.length_map, hlen1, hone]
        · exact absurd h (by simp)

/-- C3 counterexample: a solo scout (count 1) whose single R-tier fetch
answers with two records produces an image artifact while retaining a
result list of length 2: the solo path never compares the list length
against the requested count. -/
theorem claim3_counterexample :
    do_scout cexOracle .honour 1 false false
      = some (some [shrinkOne cexRecord1, shrinkOne cexRecord2], true) ∧
    [shrinkOne cexRecord1, shrinkOne cexRecord2].length = 2 ∧ (2 : ℕ) ≠ 1 := by
  have hcR : ([Rarity.R].count .R) = 1 := by decide
  have hcN : ([Rarity.R].count .N) = 0 := by decide
  have hcSR : ([Rarity.R].count .SR) = 0 := by decide
  have hcSSR : ([Rarity.R].count .SSR) = 0 := by decide
  have hcUR : ([Rarity.R].count .UR) = 0 := by decide
  have hadj : _get_adjusted_scout (fun _ => (0:ℕ)) (fun _ => (1:ℚ)/2)
      (Fetched.mk [cexRecord1, cexRecord2] 5) 1
      = some (Fetched.mk [cexRecord1, cexRecord2] 5, [cexRecord1, cexRecord2]) := by
    norm_num [_get_adjusted_scout, padLoop, flipAll, flipStep, List.range_succ]
  have hplan : plan_rarities .honour 1 false false cexOracle.rollDraws = [.R] := by
    norm_num [plan_rarities, roll_rarity, RATES, cexOracle]
  have hcards : scout_cards cexOracle .honour 1 false false
      = some [cexRecord1, cexRecord2] := by
    simp only [scout_cards, hplan, rarityOrder, List.foldl_cons, List.foldl_nil,
      tierStep, hcR, hcN, hcSR, hcSSR, hcUR]
    norm_num [cexOracle, hadj, fisherYates, fyAux, swapAt]
  have hok : soloImageOk cexRecord1 = true := by decide
  have hshr : _shrink_results [cexRecord1, cexRecord2]
      = some [shrinkOne cexRecord1, shrinkOne cexRecord2] := by
    rw [shrink_results_nonempty _ (by simp)]
    simp
  refine ⟨?_, by simp, by norm_num⟩
  simp only [do_scout, hcards]
  norm_num [hok, hshr]

/-- Witness for C3 at the all-empty-fetch oracle: the scout fails, no
artifact is produced and the stored results are Python None. -/
theorem claim3_all_or_nothing_witness :
    (∀ (r : Rarity) (n : ℕ), (failOracle.fetch r n).results.length ≤ n) ∧
    ((false = true ∧ ∃ l, (none : Option (List (List (String × Val)))) = some l ∧
        l.length = 1) ∨
     (false = false ∧ (none : Option (List (List (String × Val)))) = none)) := by
  have hrun : do_scout failOracle .honour 1 false false = some (none, false) := by
    have hcN : ([Rarity.UR].count .N) = 0 := by decide
    have hcR : ([Rarity.UR].count .R) = 0 := by decide
    have hcSR : ([Rarity.UR].count .SR) = 0 := by decide
    have hcSSR : ([Rarity.UR].count .SSR) = 0 := by decide
    have hcUR : ([Rarity.UR].count .UR) = 1 := by decide
    have hplan : plan_rarities .honour 1 false false failOracle.rollDraws
        = [.UR] := by
      norm_num [plan_rarities, roll_rarity, RATES, failOracle]
    have hcards : scout_cards failOracle .honour 1 false false = some [] := by
      simp only [scout_cards, hplan, rarityOrder, List.foldl_cons, List.foldl_nil,
        tierStep, hcR, hcN, hcSR, hcSSR, hcUR]
      norm_num [failOracle, _get_adjusted_scout, fisherYates, fyAux]
    simp only [do_scout, hcards]
    norm_num [_shrink_results]
  exact ⟨fun _ n => Nat.zero_le n,
    claim3_all_or_nothing failOracle (fun _ n => Nat.zero_le n) .honour 1 false
      false (le_refl 1) none false hrun⟩

end RinBot
